import Mathlib

/-!
Verification of the session-routed asynchronous job pipeline in
examples/queues-agent/src/index.ts: the enqueue producer endpoint, the
queue consumer, the result-retrieval endpoint, the mock-mode agent, and a
model of the Durable Object actor host the consumer routes into.
-/

namespace QueuesAgent

/-- JavaScript runtime values, as far as the pipeline inspects them: the
producer and consumer only test truthiness, read string fields, and
coerce a value into a string for the cache key and URL. -/
inductive JVal where
  | undef
  | null
  | bool (b : Bool)
  | num (n : Int)
  | str (s : String)
  | arr (xs : List JVal)
  | obj (fs : List (String × JVal))

/-- JavaScript truthiness: undefined, null, false, 0 and the empty string
are falsy; every array (including the empty one) and object is truthy. -/
def truthy : JVal → Bool
  | .undef => false
  | .null => false
  | .bool b => b
  | .num n => n != 0
  | .str s => s != ""
  | .arr _ => true
  | .obj _ => true

/-- String coercion as used by the template literal and concatenation in
the consumer. The pipeline only ever coerces strings (the enqueue route
always stores a string sessionId), so the array join is elided. -/
def jvalToString : JVal → String
  | .undef => "undefined"
  | .null => "null"
  | .bool true => "true"
  | .bool false => "false"
  | .num n => toString n
  | .str s => s
  | .arr _ => ""
  | .obj _ => "[object Object]"

/-- The two fields the consumer destructures out of a queue message body. -/
structure MsgBody where
  sessionId : JVal
  messages : JVal

/-- Destructuring of msg.body with a fallback to the empty object: a falsy
body (modelled as none) yields undefined for both fields. -/
def msgParts : Option MsgBody → JVal × JVal
  | some b => (b.sessionId, b.messages)
  | none => (.undef, .undef)

/-- The consumer's validation test: the job is processed only when both
the sessionId and the messages field are truthy. -/
def validJob (m : Option MsgBody) : Bool :=
  truthy (msgParts m).1 && truthy (msgParts m).2

/-- One scheduled write into the results KV: key, value and the
expirationTtl passed to put (in seconds). -/
structure CacheWrite where
  key : String
  value : String
  ttl : Nat

/-- Observable behaviour of one queue-consumer invocation: the indices it
warned about (console.warn on a malformed job), the indices whose error it
logged (console.error), the indices whose agent fetch it initiated, the
cache writes it scheduled via ctx.waitUntil, and whether it returned
normally (none, acknowledging the batch) or re-raised an error (some e). -/
structure ConsumerOut (E : Type) where
  warns : List Nat
  errLogs : List Nat
  invoked : List Nat
  writes : List CacheWrite
  outcome : Option E

/-- The consumer's for-loop over batch.messages starting at absolute index
i. For each message: a falsy or incomplete body is warned about and
skipped with continue; otherwise the agent is fetched (exec i models the
fetch of the Durable Object and reading the response text; an error models
a throw) and on success a KV put with expirationTtl 60 * 60 is scheduled.
A throw is logged and immediately re-thrown, ending the loop. -/
def runQueueFrom (E : Type) (exec : Nat → Except E String) :
    Nat → List (Option MsgBody) → ConsumerOut E
  | _, [] => ⟨[], [], [], [], none⟩
  | i, m :: rest =>
    if validJob m then
      match exec i with
      | .error e => ⟨[], [i], [i], [], some e⟩
      | .ok text =>
        let o := runQueueFrom E exec (i + 1) rest
        ⟨o.warns, o.errLogs, i :: o.invoked,
          ⟨"result:" ++ jvalToString (msgParts m).1, text, 60 * 60⟩ :: o.writes,
          o.outcome⟩
    else
      let o := runQueueFrom E exec (i + 1) rest
      ⟨i :: o.warns, o.errLogs, o.invoked, o.writes, o.outcome⟩

/-- One full consumer invocation on a batch. -/
def runQueue (E : Type) (exec : Nat → Except E String)
    (batch : List (Option MsgBody)) : ConsumerOut E :=
  runQueueFrom E exec 0 batch

/-- A consumer invocation together with the later fate of its detached
cache writes: each write scheduled through ctx.waitUntil either commits or
fails, and the consumer body never observes which. -/
structure DeliveryOut (E : Type) where
  consumer : ConsumerOut E
  committed : List CacheWrite
  failedWrites : List CacheWrite

/-- The consumer invocation followed by settling the detached writes:
writeOk says which puts succeed. The consumer field is computed before the
writes settle, which is exactly the code's structure (the put is inside
ctx.waitUntil and never awaited by the loop). -/
def runDelivery (E : Type) (exec : Nat → Except E String)
    (writeOk : CacheWrite → Bool) (batch : List (Option MsgBody)) :
    DeliveryOut E :=
  let c := runQueue E exec batch
  ⟨c, c.writes.filter writeOk, c.writes.filter (fun w => !writeOk w)⟩

/-- One entry of the results KV store: the stored string and its absolute
expiration time. -/
structure KVEntry where
  value : String
  expiresAt : Nat

/-- Modelled from the spec: the Workers KV binding RESULTS_KV is platform
code outside this repository. A put with expirationTtl t at time now
stores the value with absolute expiry now + t, overwriting any previous
entry for the key (last writer wins). -/
def kvPut (store : List (String × KVEntry)) (k v : String)
    (expiresAt : Nat) : List (String × KVEntry) :=
  (k, ⟨v, expiresAt⟩) :: store.filter (fun p => p.1 != k)

/-- Modelled from the spec: a KV get returns the stored value while the
entry is unexpired, and the not-found sentinel (none, i.e. null) on an
absent or expired key, never an error and never a stale value. -/
def kvGet (store : List (String × KVEntry)) (k : String) (now : Nat) :
    Option String :=
  match store.find? (fun p => p.1 == k) with
  | some p => if now < p.2.expiresAt then some p.2.value else none
  | none => none

/-- Committing the consumer's scheduled writes into the store at time now
(each write expires ttl seconds after commit). -/
def commitWrites (now : Nat) (ws : List CacheWrite)
    (store : List (String × KVEntry)) : List (String × KVEntry) :=
  ws.foldl (fun st w => kvPut st w.key w.value (now + w.ttl)) store

/-- GET result for a sessionId: reads key result: ++ sessionId from KV and
returns the result field of the JSON response, with none modelling null.
The handler tests the value with a bare negation, so a falsy stored value
(null or the empty string) is reported as null. -/
def resultEndpoint (store : List (String × KVEntry)) (sessionId : String)
    (now : Nat) : Option String :=
  match kvGet store ("result:" ++ sessionId) now with
  | none => none
  | some v => if truthy (.str v) then some v else none

/-- Request body of POST enqueue, as the handler reads it. -/
structure EnqueueBody where
  sessionId : JVal
  messages : JVal

/-- The default message list substituted for a falsy messages field:
a single user message saying Hello! -/
def defaultMessages : JVal :=
  .arr [.obj [("role", .str "user"), ("content", .str "Hello!")]]

/-- The job the enqueue handler sends to REQUEST_QUEUE: the body's
sessionId if truthy, else a fresh random UUID; the body's messages if
truthy, else the default list. -/
def enqueueJob (body : EnqueueBody) (uuid : String) : MsgBody :=
  ⟨if truthy body.sessionId then body.sessionId else .str uuid,
   if truthy body.messages then body.messages else defaultMessages⟩

/-- The JSON response of the enqueue handler. -/
structure EnqueueResponse where
  enqueued : Bool
  sessionId : JVal

/-- The handler responds with enqueued true and the same sessionId it
stored into the job. -/
def enqueueResponse (body : EnqueueBody) (uuid : String) : EnqueueResponse :=
  ⟨true, (enqueueJob body uuid).sessionId⟩

/-- Modelled from the spec: idFromName is the Durable Object namespace's
name-to-identity map, platform code outside this repository; the spec
requires it to be a stable deterministic function of the name, so the
model takes it as a fixed function parameter. The consumer derives the
actor identity from the sessionId alone. -/
def deriveActorId (idFromName : String → String) (sessionId : String) :
    String :=
  idFromName sessionId

/-- The routed call the consumer makes for one valid job: the resolved
actor identity and the internal request it fetches, whose body carries a
fresh random UUID and the job's messages. -/
structure AgentCall where
  actorId : String
  url : String
  reqId : String
  reqMessages : JVal

/-- The consumer's routing step for a valid message body: resolve the
actor from the sessionId and build the internal chat request. -/
def routeMessage (idFromName : String → String) (m : MsgBody)
    (uuid : String) : AgentCall :=
  ⟨deriveActorId idFromName (jvalToString m.sessionId),
   "https://internal/agent/chat/" ++ jvalToString m.sessionId,
   uuid, m.messages⟩

/-- The environment fields QueueAgent.processMessage consults. -/
structure WorkerEnv where
  USE_MOCK_AI : Option String

/-- One chat message; content is some s when the content is a string and
none when it is absent or of another type. -/
structure ChatMsg where
  role : String
  content : Option String

/-- Outcome of processMessage: either the mock-mode SSE response (body and
the X-Session-Id header), or a live call into streamTextWithMessages with
its system prompt, maxSteps and message list. -/
inductive ProcOutcome where
  | mock (body : String) (sessionHeader : String)
  | live (system : String) (maxSteps : Nat) (sent : List ChatMsg)

/-- The text the mock branch quotes: the last message's content when that
content is a string, else Hello (also when the list is empty). -/
def mockUserText (msgs : List ChatMsg) : String :=
  match msgs.getLast? with
  | some m =>
    match m.content with
    | some s => s
    | none => "Hello"
  | none => "Hello"

/-- The mock reply template. -/
def mockReply (msgs : List ChatMsg) : String :=
  "Mock response: I received your message \"" ++ mockUserText msgs ++
    "\". This is a mock response for local testing without API keys."

/-- QueueAgent.processMessage: with USE_MOCK_AI set to true it returns the
templated SSE body without touching any model; otherwise it forwards the
messages to the generation capability with the fixed system prompt. -/
def processMessage (env : WorkerEnv) (sessionId : String)
    (msgs : List ChatMsg) : ProcOutcome :=
  if env.USE_MOCK_AI == some "true" then
    .mock ("0:\"" ++ mockReply msgs ++ "\"") sessionId
  else
    .live "You are a helpful assistant. Keep responses concise." 5 msgs

/-- Whether the outcome invoked the external generation capability. -/
def isLiveCall : ProcOutcome → Bool
  | .mock _ _ => false
  | .live _ _ _ => true

/-- The response body of a mock outcome (empty for a live call). -/
def mockBody : ProcOutcome → String
  | .mock b _ => b
  | .live _ _ _ => ""

/-- Whether the first list is an initial segment of the second. -/
def isPre : List Char → List Char → Bool
  | [], _ => true
  | _ :: _, [] => false
  | a :: as, b :: bs => a == b && isPre as bs

/-- Whether the first list occurs contiguously inside the second. -/
def subOf : List Char → List Char → Bool
  | needle, [] => isPre needle []
  | needle, h :: t => isPre needle (h :: t) || subOf needle t

/-- Whether sub occurs as a literal substring of hay. -/
def containsText (hay sub : String) : Bool :=
  subOf sub.toList hay.toList

/-- The content of the most recent user-role message, the claim's notion
of the last user content (the code itself never computes this; it reads
the last message of any role). -/
def lastUserContent (msgs : List ChatMsg) : Option String :=
  (msgs.reverse.find? (fun m => m.role == "user")).bind (fun m => m.content)

/-- Modelled from the spec: events of the actor host, platform code
outside this repository. Invocation inv starts executing inside the actor
with identity aid, or finishes. -/
inductive HostEvent where
  | start (inv : Nat) (aid : String)
  | stop (inv : Nat) (aid : String)
  deriving DecidableEq

/-- In-flight set transition: a start adds the invocation, a stop removes
it. -/
def hostStep (s : List (Nat × String)) : HostEvent → List (Nat × String)
  | .start i a => (i, a) :: s
  | .stop i a => s.erase (i, a)

/-- Modelled from the spec: the host admits a start only when no
invocation is currently executing inside the same actor identity (the
second caller blocks until the first completes), and a stop only for an
invocation that is executing; invocation labels are fresh. -/
def okEvent (s : List (Nat × String)) (used : List Nat) : HostEvent → Bool
  | .start i a => !used.contains i && s.all (fun p => p.2 != a)
  | .stop i a => s.contains (i, a)

/-- Bookkeeping of invocation labels already started. -/
def usedStep (used : List Nat) : HostEvent → List Nat
  | .start i _ => i :: used
  | .stop _ _ => used

/-- Validity of a host trace from a given in-flight set and used-label
set: every event is admissible when it occurs. -/
def okTraceFrom (s : List (Nat × String)) (used : List Nat) :
    List HostEvent → Bool
  | [] => true
  | e :: tr => okEvent s used e && okTraceFrom (hostStep s e) (usedStep used e) tr

/-- Validity of a host trace from the idle host. -/
def okTrace (tr : List HostEvent) : Bool :=
  okTraceFrom [] [] tr

/-- The in-flight set after replaying a trace from state s. -/
def runHostFrom (s : List (Nat × String)) : List HostEvent → List (Nat × String)
  | [] => s
  | e :: tr => runHostFrom (hostStep s e) tr

/-- The in-flight set after a trace from the idle host. -/
def inFlight (tr : List HostEvent) : List (Nat × String) :=
  runHostFrom [] tr

/-- Live-instance transition: the first start against an identity creates
its (unique) instance; instances are not destroyed by this pipeline. -/
def liveStep (s : List String) : HostEvent → List String
  | .start _ a => if a ∈ s then s else a :: s
  | .stop _ _ => s

/-- Live instances after replaying a trace from instance set s. -/
def liveFrom (s : List String) : List HostEvent → List String
  | [] => s
  | e :: tr => liveFrom (liveStep s e) tr

/-- Live instances after a trace from the empty host. -/
def liveActors (tr : List HostEvent) : List String :=
  liveFrom [] tr

/-- No two in-flight invocations share an actor identity. -/
def aidsDistinct (s : List (Nat × String)) : Prop :=
  s.Pairwise (fun p q => p.2 ≠ q.2)

/-- Every cache write the consumer schedules carries expirationTtl 3600. -/
theorem runQueueFrom_ttl (E : Type) (exec : Nat → Except E String) :
    ∀ (ms : List (Option MsgBody)) (k : Nat),
      ∀ w ∈ (runQueueFrom E exec k ms).writes, w.ttl = 60 * 60 := by
  intro ms
  induction ms with
  | nil => intro k w hw; simp [runQueueFrom] at hw
  | cons m rest ih =>
    intro k w hw
    by_cases hv : validJob m = true
    · cases hexec : exec k with
      | error e => simp [runQueueFrom, hv, hexec] at hw
      | ok t =>
        simp only [runQueueFrom, hv, hexec, if_true] at hw
        rcases List.mem_cons.mp hw with h | h
        · rw [h]
        · exact ih (k + 1) w h
    · simp only [runQueueFrom, hv, if_false, Bool.false_eq_true] at hw
      exact ih (k + 1) w hw

/-- When every valid message's processing succeeds, the consumer returns
normally (acknowledging the whole batch). -/
theorem runQueueFrom_ok_outcome (E : Type) (exec : Nat → Except E String) :
    ∀ (ms : List (Option MsgBody)) (k : Nat),
      (∀ j (hj : j < ms.length), validJob (ms.get ⟨j, hj⟩) = true →
        ∃ t, exec (k + j) = .ok t) →
      (runQueueFrom E exec k ms).outcome = none := by
  intro ms
  induction ms with
  | nil => intro k _; rfl
  | cons m rest ih =>
    intro k h
    have hshift : ∀ j (hj : j < rest.length),
        validJob (rest.get ⟨j, hj⟩) = true → ∃ t, exec (k + 1 + j) = .ok t := by
      intro j hj hvj
      have e : k + 1 + j = k + (j + 1) := by omega
      rw [e]
      exact h (j + 1) (by simpa using Nat.succ_lt_succ hj)
        (by simpa using hvj)
    by_cases hv : validJob m = true
    · obtain ⟨t, ht⟩ := h 0 (by simp) (by simpa using hv)
      rw [Nat.add_zero] at ht
      simp only [runQueueFrom, hv, ht, if_true]
      exact ih (k + 1) hshift
    · simp only [runQueueFrom, hv, if_false, Bool.false_eq_true]
      exact ih (k + 1) hshift

/-- Every index the consumer invoked the actor for belongs to a message of
the batch that passed validation. -/
theorem runQueueFrom_invoked_valid (E : Type) (exec : Nat → Except E String) :
    ∀ (ms : List (Option MsgBody)) (k i : Nat),
      i ∈ (runQueueFrom E exec k ms).invoked →
      ∃ j, ∃ hj : j < ms.length, i = k + j ∧ validJob (ms.get ⟨j, hj⟩) = true := by
  intro ms
  induction ms with
  | nil => intro k i hi; simp [runQueueFrom] at hi
  | cons m rest ih =>
    intro k i hi
    by_cases hv : validJob m = true
    · cases hexec : exec k with
      | error e =>
        simp only [runQueueFrom, hv, hexec, if_true] at hi
        rcases List.mem_singleton.mp hi with h
        exact ⟨0, by simp, by omega, by simpa using hv⟩
      | ok t =>
        simp only [runQueueFrom, hv, hexec, if_true] at hi
        rcases List.mem_cons.mp hi with h | h
        · exact ⟨0, by simp, by omega, by simpa using hv⟩
        · obtain ⟨j, hj, hij, hvj⟩ := ih (k + 1) i h
          exact ⟨j + 1, by simpa using Nat.succ_lt_succ hj, by omega,
            by simpa using hvj⟩
    · simp only [runQueueFrom, hv, if_false, Bool.false_eq_true] at hi
      obtain ⟨j, hj, hij, hvj⟩ := ih (k + 1) i hi
      exact ⟨j + 1, by simpa using Nat.succ_lt_succ hj, by omega,
        by simpa using hvj⟩

/-- When every valid message's processing succeeds: every malformed
message is warned about, and every valid message is invoked and yields a
cache write of its result under its session key. -/
theorem runQueueFrom_per_message (E : Type) (exec : Nat → Except E String) :
    ∀ (ms : List (Option MsgBody)) (k : Nat),
      (∀ j (hj : j < ms.length), validJob (ms.get ⟨j, hj⟩) = true →
        ∃ t, exec (k + j) = .ok t) →
      ∀ j (hj : j < ms.length),
        (validJob (ms.get ⟨j, hj⟩) = false →
          (k + j) ∈ (runQueueFrom E exec k ms).warns) ∧
        (validJob (ms.get ⟨j, hj⟩) = true →
          (k + j) ∈ (runQueueFrom E exec k ms).invoked ∧
          ∃ t, exec (k + j) = .ok t ∧
            (⟨"result:" ++ jvalToString (msgParts (ms.get ⟨j, hj⟩)).1, t, 60 * 60⟩ :
              CacheWrite) ∈ (runQueueFrom E exec k ms).writes) := by
  intro ms
  induction ms with
  | nil => intro k _ j hj; simp at hj
  | cons m rest ih =>
    intro k h j hj
    have hshift : ∀ j (hj : j < rest.length),
        validJob (rest.get ⟨j, hj⟩) = true → ∃ t, exec (k + 1 + j) = .ok t := by
      intro j hj hvj
      have e : k + 1 + j = k + (j + 1) := by omega
      rw [e]
      exact h (j + 1) (by simpa using Nat.succ_lt_succ hj) (by simpa using hvj)
    by_cases hv : validJob m = true
    · obtain ⟨t, ht⟩ := h 0 (by simp) (by simpa using hv)
      rw [Nat.add_zero] at ht
      cases j with
      | zero =>
        constructor
        · intro hfalse
          have hfalse' : validJob m = false := hfalse
          rw [hv] at hfalse'; cases hfalse'
        · intro _
          refine ⟨?_, t, by simpa using ht, ?_⟩
          · simp [runQueueFrom, hv, ht]
          · simp [runQueueFrom, hv, ht]
      | succ j =>
        have hj' : j < rest.length := by simpa using Nat.lt_of_succ_lt_succ hj
        have hrec := ih (k + 1) hshift j hj'
        have e : k + (j + 1) = k + 1 + j := by omega
        constructor
        · intro hfalse
          simp only [List.get_cons_succ] at hfalse
          rw [e]
          have := hrec.1 hfalse
          simpa [runQueueFrom, hv, ht] using this
        · intro htrue
          simp only [List.get_cons_succ] at htrue
          obtain ⟨hinv, t', ht', hw⟩ := hrec.2 htrue
          rw [e]
          refine ⟨?_, t', ht', ?_⟩
          · simp only [runQueueFrom, hv, ht, if_true, List.mem_cons]
            exact Or.inr hinv
          · simp only [runQueueFrom, hv, ht, if_true, List.mem_cons, List.get_cons_succ]
            exact Or.inr hw
    · cases j with
      | zero =>
        constructor
        · intro _
          simp [runQueueFrom, hv]
        · intro htrue
          have htrue' : validJob m = true := htrue
          exact absurd htrue' hv
      | succ j =>
        have hj' : j < rest.length := by simpa using Nat.lt_of_succ_lt_succ hj
        have hrec := ih (k + 1) hshift j hj'
        have e : k + (j + 1) = k + 1 + j := by omega
        constructor
        · intro hfalse
          simp only [List.get_cons_succ] at hfalse
          rw [e]
          have := hrec.1 hfalse
          simp only [runQueueFrom, hv, if_false, Bool.false_eq_true, List.mem_cons]
          exact Or.inr this
        · intro htrue
          simp only [List.get_cons_succ] at htrue
          obtain ⟨hinv, t', ht', hw⟩ := hrec.2 htrue
          rw [e]
          refine ⟨?_, t', ht', ?_⟩
          · simp only [runQueueFrom, hv, if_false, Bool.false_eq_true]
            exact hinv
          · simp only [runQueueFrom, hv, if_false, Bool.false_eq_true, List.get_cons_succ]
            exact hw

/-- When the first valid message whose processing fails sits at offset i,
the consumer logs the error and re-raises that very error, and never
invokes the actor for any message past that point. -/
theorem runQueueFrom_error_stops (E : Type) (exec : Nat → Except E String) :
    ∀ (ms : List (Option MsgBody)) (k i : Nat) (hi : i < ms.length) (e : E),
      validJob (ms.get ⟨i, hi⟩) = true →
      exec (k + i) = .error e →
      (∀ j (hj : j < i), validJob (ms.get ⟨j, Nat.lt_trans hj hi⟩) = true →
        ∃ t, exec (k + j) = .ok t) →
      (runQueueFrom E exec k ms).outcome = some e ∧
      (k + i) ∈ (runQueueFrom E exec k ms).errLogs ∧
      ∀ j ∈ (runQueueFrom E exec k ms).invoked, j ≤ k + i := by
  intro ms
  induction ms with
  | nil => intro k i hi; simp at hi
  | cons m rest ih =>
    intro k i hi e hvi herr hbefore
    cases i with
    | zero =>
      have hv : validJob m = true := hvi
      rw [Nat.add_zero] at herr
      refine ⟨?_, ?_, ?_⟩
      · simp [runQueueFrom, hv, herr]
      · simp [runQueueFrom, hv, herr]
      · intro j hj
        simp only [runQueueFrom, hv, herr, if_true, List.mem_singleton] at hj
        omega
    | succ i =>
      have hi' : i < rest.length := by simpa using Nat.lt_of_succ_lt_succ hi
      have hvi' : validJob (rest.get ⟨i, hi'⟩) = true := by
        simpa only [List.get_cons_succ] using hvi
      have herr' : exec (k + 1 + i) = .error e := by
        have e2 : k + 1 + i = k + (i + 1) := by omega
        rw [e2]; exact herr
      have hbefore' : ∀ j (hj : j < i),
          validJob (rest.get ⟨j, Nat.lt_trans hj hi'⟩) = true →
          ∃ t, exec (k + 1 + j) = .ok t := by
        intro j hj hvj
        have e2 : k + 1 + j = k + (j + 1) := by omega
        rw [e2]
        exact hbefore (j + 1) (by simpa using Nat.succ_lt_succ hj)
          (by simpa only [List.get_cons_succ] using hvj)
      obtain ⟨hout, hlog, hbound⟩ := ih (k + 1) i hi' e hvi' herr' hbefore'
      have e1 : k + (i + 1) = k + 1 + i := by omega
      cases hv : validJob m with
      | true =>
        obtain ⟨t, ht⟩ := hbefore 0 (Nat.succ_pos i) hv
        rw [Nat.add_zero] at ht
        refine ⟨?_, ?_, ?_⟩
        · simpa only [runQueueFrom, hv, ht, if_true] using hout
        · rw [e1]
          simpa only [runQueueFrom, hv, ht, if_true] using hlog
        · intro j hj
          simp only [runQueueFrom, hv, ht, if_true, List.mem_cons] at hj
          rcases hj with h | h
          · omega
          · have := hbound j h; omega
      | false =>
        refine ⟨?_, ?_, ?_⟩
        · simpa only [runQueueFrom, hv, if_false, Bool.false_eq_true] using hout
        · rw [e1]
          simpa only [runQueueFrom, hv, if_false, Bool.false_eq_true] using hlog
        · intro j hj
          simp only [runQueueFrom, hv, if_false, Bool.false_eq_true] at hj
          have := hbound j hj; omega

/-- An admissible host event preserves distinctness of the in-flight actor
identities: a start is admitted only against an idle identity. -/
theorem hostStep_aidsDistinct (s : List (Nat × String)) (used : List Nat)
    (e : HostEvent) (hok : okEvent s used e = true)
    (hd : aidsDistinct s) : aidsDistinct (hostStep s e) := by
  cases e with
  | start i a =>
    have hall : ∀ p ∈ s, p.2 ≠ a := by
      intro p hp
      have := (Bool.and_eq_true _ _ |>.mp hok).2
      have := (List.all_eq_true.mp this) p hp
      simpa using this
    exact List.Pairwise.cons (fun q hq h => hall q hq h.symm) hd
  | stop i a =>
    exact List.Pairwise.sublist (List.erase_sublist _ _) hd

/-- Along any admissible host trace, every prefix of the run keeps the
in-flight actor identities distinct. -/
theorem runHostFrom_aidsDistinct :
    ∀ (tr : List HostEvent) (s : List (Nat × String)) (used : List Nat) (n : Nat),
      aidsDistinct s → okTraceFrom s used tr = true →
      aidsDistinct (runHostFrom s (tr.take n)) := by
  intro tr
  induction tr with
  | nil =>
    intro s used n hd _
    simp only [List.take_nil]
    exact hd
  | cons e tr ih =>
    intro s used n hd hok
    have hok1 : okEvent s used e = true := (Bool.and_eq_true _ _ |>.mp hok).1
    have hok2 : okTraceFrom (hostStep s e) (usedStep used e) tr = true :=
      (Bool.and_eq_true _ _ |>.mp hok).2
    cases n with
    | zero => exact hd
    | succ n =>
      simp only [List.take_succ_cons]
      exact ih (hostStep s e) (usedStep used e) n
        (hostStep_aidsDistinct s used e hok1 hd) hok2

/-- A list whose entries have pairwise distinct second components holds at
most one entry with any given second component. -/
theorem aidsDistinct_filter_length (a : String) :
    ∀ (s : List (Nat × String)), aidsDistinct s →
      (s.filter (fun p => p.2 == a)).length ≤ 1 := by
  intro s
  induction s with
  | nil => intro _; simp
  | cons p s ih =>
    intro hd
    have hrest : aidsDistinct s := hd.of_cons
    have hhead : ∀ q ∈ s, p.2 ≠ q.2 := fun q hq => List.rel_of_pairwise_cons hd hq
    by_cases hp : p.2 = a
    · have : s.filter (fun q => q.2 == a) = [] := by
        rw [List.filter_eq_nil_iff]
        intro q hq
        have := hhead q hq
        simp only [beq_iff_eq]
        rw [← hp]
        exact fun h => this h.symm
      simp [List.filter_cons, hp, this]
    · have : (p.2 == a) = false := by simpa using hp
      simp only [List.filter_cons, this]
      exact ih hrest

/-- The live-instance set never holds a duplicate identity, on any prefix
of any trace: an instance is created only on first use. -/
theorem liveFrom_nodup :
    ∀ (tr : List HostEvent) (s : List String) (n : Nat),
      s.Nodup → (liveFrom s (tr.take n)).Nodup := by
  intro tr
  induction tr with
  | nil =>
    intro s n hs
    simp only [List.take_nil]
    exact hs
  | cons e tr ih =>
    intro s n hs
    cases n with
    | zero => exact hs
    | succ n =>
      simp only [List.take_succ_cons]
      refine ih (liveStep s e) n ?_
      cases e with
      | start i a =>
        by_cases ha : a ∈ s
        · simpa [liveStep, ha] using hs
        · simpa [liveStep, ha] using List.Nodup.cons ha hs
      | stop i a => exact hs

/-- Claim C1: for every sessionId, two process invocations routed to that
sessionId (queue consumer or sync gateway, both of which resolve the
Durable Object identity via deriveActorId of the sessionId) never execute
concurrently inside the corresponding actor: along every admissible host
trace, at every point (every prefix), at most one invocation against that
identity is in flight — so execution windows never overlap — and at most
one live actor instance exists for the identity. -/
theorem session_invocations_serialized (idFromName : String → String)
    (sid : String) (tr : List HostEvent) (n : Nat)
    (h : okTrace tr = true) :
    ((inFlight (tr.take n)).filter
        (fun p => p.2 == deriveActorId idFromName sid)).length ≤ 1 ∧
    (liveActors (tr.take n)).count (deriveActorId idFromName sid) ≤ 1 := by
  constructor
  · exact aidsDistinct_filter_length _ _
      (runHostFrom_aidsDistinct tr [] [] n List.Pairwise.nil h)
  · exact List.nodup_iff_count_le_one.mp (liveFrom_nodup tr [] n List.nodup_nil) _

theorem session_invocations_serialized_witness :
    okTrace [HostEvent.start 0 "s1", HostEvent.stop 0 "s1",
      HostEvent.start 1 "s1"] = true ∧
    (((inFlight ([HostEvent.start 0 "s1", HostEvent.stop 0 "s1",
          HostEvent.start 1 "s1"].take 3)).filter
        (fun p => p.2 == deriveActorId id "s1")).length ≤ 1 ∧
      (liveActors ([HostEvent.start 0 "s1", HostEvent.stop 0 "s1",
          HostEvent.start 1 "s1"].take 3)).count (deriveActorId id "s1") ≤ 1) :=
  ⟨by decide,
    session_invocations_serialized id "s1"
      [HostEvent.start 0 "s1", HostEvent.stop 0 "s1", HostEvent.start 1 "s1"]
      3 (by decide)⟩

/-- Claim C2: actor routing is deterministic — the consumer's routing step
derives the actor identity from the sessionId string alone, so two runs on
the same sessionId (with different random request ids and different
message payloads) yield the identical identity. -/
theorem routing_deterministic (idFromName : String → String) (s : String)
    (m m' : JVal) (u u' : String) :
    (routeMessage idFromName ⟨JVal.str s, m⟩ u).actorId =
      (routeMessage idFromName ⟨JVal.str s, m'⟩ u').actorId ∧
    (routeMessage idFromName ⟨JVal.str s, m⟩ u).actorId =
      deriveActorId idFromName s :=
  ⟨rfl, rfl⟩

/-- Claim C8: every job produced by the enqueue endpoint passes the
consumer's validation predicate: a falsy messages field is replaced by the
default Hello! list, a falsy sessionId (including the empty string) by the
fresh UUID, so the enqueued job has a truthy, non-empty sessionId and a
truthy messages field and is never skipped as malformed; the response
reports exactly the sessionId stored in the job. -/
theorem enqueue_produces_valid_jobs (body : EnqueueBody) (uuid : String)
    (h : uuid ≠ "") :
    validJob (some (enqueueJob body uuid)) = true ∧
    truthy (enqueueJob body uuid).sessionId = true ∧
    (∀ s, (enqueueJob body uuid).sessionId = .str s → s ≠ "") ∧
    truthy (enqueueJob body uuid).messages = true ∧
    (truthy body.messages = false →
      (enqueueJob body uuid).messages = defaultMessages) ∧
    (truthy body.sessionId = false →
      (enqueueJob body uuid).sessionId = .str uuid) ∧
    (enqueueResponse body uuid).enqueued = true ∧
    (enqueueResponse body uuid).sessionId = (enqueueJob body uuid).sessionId := by
  have hu : truthy (.str uuid) = true := by simpa [truthy] using h
  have hsid : truthy (enqueueJob body uuid).sessionId = true := by
    by_cases hs : truthy body.sessionId = true
    · have he : (enqueueJob body uuid).sessionId = body.sessionId := by
        simp [enqueueJob, hs]
      rw [he]; exact hs
    · have hs' : truthy body.sessionId = false := by simpa using hs
      have he : (enqueueJob body uuid).sessionId = .str uuid := by
        simp [enqueueJob, hs']
      rw [he]; exact hu
  have hmsg : truthy (enqueueJob body uuid).messages = true := by
    by_cases hm : truthy body.messages = true
    · have he : (enqueueJob body uuid).messages = body.messages := by
        simp [enqueueJob, hm]
      rw [he]; exact hm
    · have hm' : truthy body.messages = false := by simpa using hm
      have hd : (enqueueJob body uuid).messages = defaultMessages := by
        simp [enqueueJob, hm']
      rw [hd]; rfl
  refine ⟨?_, hsid, ?_, hmsg, ?_, ?_, rfl, rfl⟩
  · simp [validJob, msgParts, hsid, hmsg]
  · intro s hs
    rw [hs] at hsid
    simpa [truthy] using hsid
  · intro hm; simp [enqueueJob, hm]
  · intro hs; simp [enqueueJob, hs]

theorem enqueue_produces_valid_jobs_witness :
    validJob (some (enqueueJob ⟨JVal.undef, JVal.undef⟩ "u1")) = true ∧
    (enqueueJob ⟨JVal.undef, JVal.undef⟩ "u1").sessionId = JVal.str "u1" ∧
    (enqueueJob ⟨JVal.undef, JVal.undef⟩ "u1").messages = defaultMessages :=
  ⟨(enqueue_produces_valid_jobs ⟨JVal.undef, JVal.undef⟩ "u1" (by decide)).1,
    (enqueue_produces_valid_jobs ⟨JVal.undef, JVal.undef⟩ "u1"
      (by decide)).2.2.2.2.2.1 rfl,
    (enqueue_produces_valid_jobs ⟨JVal.undef, JVal.undef⟩ "u1"
      (by decide)).2.2.2.2.1 rfl⟩

/-- Claim C10: the result-retrieval endpoint conflates an empty cached
result with absence — when the stored value for a sessionId is the empty
string, the handler returns null, the same response as for a never-written
key, because it treats every falsy value as not found. -/
theorem result_endpoint_empty_conflated (store : List (String × KVEntry))
    (s : String) (now : Nat)
    (h : kvGet store ("result:" ++ s) now = some "") :
    resultEndpoint store s now = none ∧ resultEndpoint [] s now = none := by
  constructor
  · simp [resultEndpoint, h, truthy]
  · rfl

theorem result_endpoint_empty_conflated_witness :
    kvGet (kvPut [] ("result:" ++ "s1") "" 3600) ("result:" ++ "s1") 0 = some "" ∧
    (resultEndpoint (kvPut [] ("result:" ++ "s1") "" 3600) "s1" 0 = none ∧
      resultEndpoint [] "s1" 0 = none) :=
  ⟨rfl, result_endpoint_empty_conflated (kvPut [] ("result:" ++ "s1") "" 3600)
    "s1" 0 rfl⟩

/-- Claim C3: for every batch whose valid jobs all process successfully,
each message missing a truthy sessionId or messages field is warned about
and skipped — the actor is never invoked for it — the consumer returns
normally (so nothing is re-raised, retried or dead-lettered for it), and
every other (valid) job of the batch is still processed. -/
theorem malformed_jobs_skipped (E : Type) (exec : Nat → Except E String)
    (batch : List (Option MsgBody))
    (h : ∀ j (hj : j < batch.length), validJob (batch.get ⟨j, hj⟩) = true →
      ∃ t, exec j = .ok t) :
    (runQueue E exec batch).outcome = none ∧
    ∀ j (hj : j < batch.length),
      (validJob (batch.get ⟨j, hj⟩) = false →
        j ∈ (runQueue E exec batch).warns ∧
        j ∉ (runQueue E exec batch).invoked) ∧
      (validJob (batch.get ⟨j, hj⟩) = true →
        j ∈ (runQueue E exec batch).invoked) := by
  have h0 : ∀ j (hj : j < batch.length), validJob (batch.get ⟨j, hj⟩) = true →
      ∃ t, exec (0 + j) = .ok t := by
    intro j hj hv
    rw [Nat.zero_add]
    exact h j hj hv
  refine ⟨runQueueFrom_ok_outcome E exec batch 0 h0, ?_⟩
  intro j hj
  have hper := runQueueFrom_per_message E exec batch 0 h0 j hj
  constructor
  · intro hf
    constructor
    · have := hper.1 hf
      simpa [runQueue, Nat.zero_add] using this
    · intro hinv
      obtain ⟨j', hj', hej, hv'⟩ :=
        runQueueFrom_invoked_valid E exec batch 0 j hinv
      have hjj : j' = j := by omega
      subst hjj
      have hv'' : validJob (batch.get ⟨j', hj⟩) = true := hv'
      rw [hf] at hv''
      cases hv''
  · intro ht
    have := (hper.2 ht).1
    simpa [runQueue, Nat.zero_add] using this

theorem malformed_jobs_skipped_witness :
    (runQueue String (fun _ => .ok "done")
      [none, some ⟨JVal.str "s1", JVal.arr []⟩]).outcome = none ∧
    0 ∈ (runQueue String (fun _ => .ok "done")
      [none, some ⟨JVal.str "s1", JVal.arr []⟩]).warns ∧
    0 ∉ (runQueue String (fun _ => .ok "done")
      [none, some ⟨JVal.str "s1", JVal.arr []⟩]).invoked ∧
    1 ∈ (runQueue String (fun _ => .ok "done")
      [none, some ⟨JVal.str "s1", JVal.arr []⟩]).invoked :=
  ⟨(malformed_jobs_skipped String (fun _ => .ok "done")
      [none, some ⟨JVal.str "s1", JVal.arr []⟩]
      (fun _ _ _ => ⟨"done", rfl⟩)).1,
    ((malformed_jobs_skipped String (fun _ => .ok "done")
      [none, some ⟨JVal.str "s1", JVal.arr []⟩]
      (fun _ _ _ => ⟨"done", rfl⟩)).2 0 (by simp)).1 rfl |>.1,
    ((malformed_jobs_skipped String (fun _ => .ok "done")
      [none, some ⟨JVal.str "s1", JVal.arr []⟩]
      (fun _ _ _ => ⟨"done", rfl⟩)).2 0 (by simp)).1 rfl |>.2,
    ((malformed_jobs_skipped String (fun _ => .ok "done")
      [none, some ⟨JVal.str "s1", JVal.arr []⟩]
      (fun _ _ _ => ⟨"done", rfl⟩)).2 1 (by simp)).2 rfl⟩

/-- Claim C4: for every job that passes validation, if a subsequent step
throws (the first failing valid job of the delivery), the consumer logs
the error and re-raises exactly that error to the transport instead of
acknowledging, which is what drives the transport's redelivery. -/
theorem post_validation_error_reraised (E : Type)
    (exec : Nat → Except E String) (batch : List (Option MsgBody))
    (i : Nat) (hi : i < batch.length) (e : E)
    (hv : validJob (batch.get ⟨i, hi⟩) = true)
    (herr : exec i = .error e)
    (hbefore : ∀ j (hj : j < i),
      validJob (batch.get ⟨j, Nat.lt_trans hj hi⟩) = true →
      ∃ t, exec j = .ok t) :
    (runQueue E exec batch).outcome = some e ∧
    i ∈ (runQueue E exec batch).errLogs := by
  have herr0 : exec (0 + i) = .error e := by rw [Nat.zero_add]; exact herr
  have hb0 : ∀ j (hj : j < i),
      validJob (batch.get ⟨j, Nat.lt_trans hj hi⟩) = true →
      ∃ t, exec (0 + j) = .ok t := by
    intro j hj hvj
    rw [Nat.zero_add]
    exact hbefore j hj hvj
  obtain ⟨ha, hb, _⟩ :=
    runQueueFrom_error_stops E exec batch 0 i hi e hv herr0 hb0
  exact ⟨ha, by simpa [Nat.zero_add] using hb⟩

theorem post_validation_error_reraised_witness :
    (runQueue String (fun n => if n = 0 then .error "boom" else .ok "done")
      [some ⟨JVal.str "s1", JVal.arr []⟩]).outcome = some "boom" ∧
    0 ∈ (runQueue String (fun n => if n = 0 then .error "boom" else .ok "done")
      [some ⟨JVal.str "s1", JVal.arr []⟩]).errLogs :=
  post_validation_error_reraised String
    (fun n => if n = 0 then .error "boom" else .ok "done")
    [some ⟨JVal.str "s1", JVal.arr []⟩] 0 (by simp) "boom" rfl rfl
    (fun j hj _ => absurd hj (Nat.not_lt_zero j))

/-- Claim C9: within a single consumer invocation, a post-validation
failure on one job aborts the remainder of the batch — the error is
re-raised and no message after the failing index is ever invoked in that
delivery attempt (earlier malformed messages are merely skipped and do not
abort, since i here is only required to be the first failing valid
index). -/
theorem batch_aborts_after_error (E : Type) (exec : Nat → Except E String)
    (batch : List (Option MsgBody)) (i : Nat) (hi : i < batch.length) (e : E)
    (hv : validJob (batch.get ⟨i, hi⟩) = true)
    (herr : exec i = .error e)
    (hbefore : ∀ j (hj : j < i),
      validJob (batch.get ⟨j, Nat.lt_trans hj hi⟩) = true →
      ∃ t, exec j = .ok t) :
    (runQueue E exec batch).outcome = some e ∧
    ∀ j ∈ (runQueue E exec batch).invoked, j ≤ i := by
  have herr0 : exec (0 + i) = .error e := by rw [Nat.zero_add]; exact herr
  have hb0 : ∀ j (hj : j < i),
      validJob (batch.get ⟨j, Nat.lt_trans hj hi⟩) = true →
      ∃ t, exec (0 + j) = .ok t := by
    intro j hj hvj
    rw [Nat.zero_add]
    exact hbefore j hj hvj
  obtain ⟨ha, _, hc⟩ :=
    runQueueFrom_error_stops E exec batch 0 i hi e hv herr0 hb0
  refine ⟨ha, fun j hj => ?_⟩
  have := hc j hj
  omega

theorem batch_aborts_after_error_witness :
    (runQueue String (fun n => if n = 0 then .error "boom" else .ok "done")
      [some ⟨JVal.str "s1", JVal.arr []⟩,
        some ⟨JVal.str "s2", JVal.arr []⟩]).outcome = some "boom" ∧
    ∀ j ∈ (runQueue String
        (fun n => if n = 0 then .error "boom" else .ok "done")
        [some ⟨JVal.str "s1", JVal.arr []⟩,
          some ⟨JVal.str "s2", JVal.arr []⟩]).invoked, j ≤ 0 :=
  batch_aborts_after_error String
    (fun n => if n = 0 then .error "boom" else .ok "done")
    [some ⟨JVal.str "s1", JVal.arr []⟩, some ⟨JVal.str "s2", JVal.arr []⟩]
    0 (by simp) "boom" rfl rfl
    (fun j hj _ => absurd hj (Nat.not_lt_zero j))

/-- A get straight after a put of the same key sees the new entry until
its expiry. -/
theorem kvGet_kvPut_same (store : List (String × KVEntry)) (k v : String)
    (e now : Nat) :
    kvGet (kvPut store k v e) k now = if now < e then some v else none := by
  unfold kvPut kvGet
  rw [List.find?_cons_of_pos _ (by simp)]

/-- Claim C5 counterexample: a job whose generation yields the empty
string is cached by the consumer, and well before the 3600-second TTL
elapses the stored value is still present in KV (the get returns it), yet
the result endpoint answers null instead of the stored value. -/
theorem result_cache_empty_value_cex :
    kvGet (commitWrites 0
        (runQueue String (fun _ => .ok "")
          [some ⟨JVal.str "s1", JVal.arr []⟩]).writes [])
      ("result:" ++ "s1") 10 = some "" ∧
    resultEndpoint (commitWrites 0
        (runQueue String (fun _ => .ok "")
          [some ⟨JVal.str "s1", JVal.arr []⟩]).writes []) "s1" 10 = none :=
  ⟨rfl, rfl⟩

/-- Claim C5 (amended): every result-cache entry written by the consumer
carries a TTL of 3600 seconds; a get before the TTL elapses returns the
stored value provided that value is non-empty (an empty stored value is
conflated with absence and reported as null); a get after expiry or on a
never-written key returns null, never a stale value and never an error. -/
theorem result_cache_ttl_spec (E : Type) (exec : Nat → Except E String)
    (batch : List (Option MsgBody)) (store : List (String × KVEntry))
    (s v : String) (t0 t1 : Nat) :
    (∀ w ∈ (runQueue E exec batch).writes, w.ttl = 60 * 60) ∧
    (t1 < t0 + 3600 → v ≠ "" →
      resultEndpoint (kvPut store ("result:" ++ s) v (t0 + 3600)) s t1 =
        some v) ∧
    (t0 + 3600 ≤ t1 →
      resultEndpoint (kvPut store ("result:" ++ s) v (t0 + 3600)) s t1 =
        none) ∧
    (t1 < t0 + 3600 →
      resultEndpoint (kvPut store ("result:" ++ s) "" (t0 + 3600)) s t1 =
        none) ∧
    resultEndpoint [] s t1 = none := by
  refine ⟨runQueueFrom_ttl E exec batch 0, ?_, ?_, ?_, rfl⟩
  · intro ht hv
    have hg := kvGet_kvPut_same store ("result:" ++ s) v (t0 + 3600) t1
    rw [if_pos ht] at hg
    simp [resultEndpoint, hg, truthy, hv]
  · intro ht
    have hg := kvGet_kvPut_same store ("result:" ++ s) v (t0 + 3600) t1
    rw [if_neg (by omega)] at hg
    simp [resultEndpoint, hg]
  · intro ht
    have hg := kvGet_kvPut_same store ("result:" ++ s) "" (t0 + 3600) t1
    rw [if_pos ht] at hg
    simp [resultEndpoint, hg, truthy]

theorem result_cache_ttl_spec_witness :
    (∀ w ∈ (runQueue String (fun _ => .ok "hi")
        [some ⟨JVal.str "s1", JVal.arr []⟩]).writes, w.ttl = 60 * 60) ∧
    resultEndpoint (kvPut [] ("result:" ++ "s1") "hi" (0 + 3600)) "s1" 10 =
      some "hi" ∧
    resultEndpoint (kvPut [] ("result:" ++ "s1") "hi" (0 + 3600)) "s1" 4000 =
      none :=
  ⟨(result_cache_ttl_spec String (fun _ => .ok "hi")
      [some ⟨JVal.str "s1", JVal.arr []⟩] [] "s1" "hi" 0 10).1,
    (result_cache_ttl_spec String (fun _ => .ok "hi")
      [some ⟨JVal.str "s1", JVal.arr []⟩] [] "s1" "hi" 0 10).2.1
      (by omega) (by decide),
    (result_cache_ttl_spec String (fun _ => .ok "hi")
      [some ⟨JVal.str "s1", JVal.arr []⟩] [] "s1" "hi" 0 4000).2.2.1
      (by omega)⟩

/-- Claim C6 counterexample: in mock mode, with a list whose last message
is an assistant message, the last user content is the string ping, yet the
returned body does not contain ping — it quotes the assistant's bye — so
the reply is derived from the last message of any role, not from the last
user message. No external capability is invoked either way. -/
theorem mock_mode_last_user_cex :
    lastUserContent [⟨"user", some "ping"⟩, ⟨"assistant", some "bye"⟩] =
      some "ping" ∧
    containsText (mockBody (processMessage ⟨some "true"⟩ "s1"
      [⟨"user", some "ping"⟩, ⟨"assistant", some "bye"⟩])) "ping" = false ∧
    containsText (mockBody (processMessage ⟨some "true"⟩ "s1"
      [⟨"user", some "ping"⟩, ⟨"assistant", some "bye"⟩])) "bye" = true ∧
    isLiveCall (processMessage ⟨some "true"⟩ "s1"
      [⟨"user", some "ping"⟩, ⟨"assistant", some "bye"⟩]) = false :=
  ⟨rfl, rfl, rfl, rfl⟩

/-- Claim C6 (amended): in mock mode, for every non-empty message list,
processMessage returns the fixed templated response derived from the last
message of the list (its content when that content is a string); the body
embeds that content literally — in particular it contains ping when the
list ends with content ping — and no external generation capability is
invoked. -/
theorem mock_mode_templated_reply (env : WorkerEnv) (sid : String)
    (msgs : List ChatMsg) (m : ChatMsg) (s : String)
    (hmock : env.USE_MOCK_AI = some "true")
    (hlast : msgs.getLast? = some m) (hc : m.content = some s) :
    processMessage env sid msgs =
      .mock ("0:\"" ++ ("Mock response: I received your message \"" ++ s ++
        "\". This is a mock response for local testing without API keys.") ++
        "\"") sid ∧
    (∃ pre post, mockBody (processMessage env sid msgs) = pre ++ s ++ post) ∧
    isLiveCall (processMessage env sid msgs) = false ∧
    (s = "ping" →
      containsText (mockBody (processMessage env sid msgs)) "ping" = true) := by
  have hut : mockUserText msgs = s := by
    simp [mockUserText, hlast, hc]
  have hbody : processMessage env sid msgs =
      .mock ("0:\"" ++ ("Mock response: I received your message \"" ++ s ++
        "\". This is a mock response for local testing without API keys.") ++
        "\"") sid := by
    simp [processMessage, hmock, mockReply, hut]
  refine ⟨hbody, ?_, ?_, ?_⟩
  · refine ⟨"0:\"Mock response: I received your message \"",
      "\". This is a mock response for local testing without API keys.\"", ?_⟩
    rw [hbody]
    show "0:\"" ++ ("Mock response: I received your message \"" ++ s ++
        "\". This is a mock response for local testing without API keys.") ++
        "\"" = _
    have h1 : ("0:\"Mock response: I received your message \"" : String) =
        "0:\"" ++ "Mock response: I received your message \"" := rfl
    have h2 : ("\". This is a mock response for local testing without API keys.\"" :
        String) =
        "\". This is a mock response for local testing without API keys." ++
          "\"" := rfl
    rw [h1, h2]
    simp only [String.append_assoc]
  · rw [hbody]; rfl
  · intro hs
    subst hs
    rw [hbody]
    rfl

theorem mock_mode_templated_reply_witness :
    processMessage ⟨some "true"⟩ "w1" [⟨"user", some "ping"⟩] =
      .mock ("0:\"" ++ ("Mock response: I received your message \"" ++ "ping" ++
        "\". This is a mock response for local testing without API keys.") ++
        "\"") "w1" ∧
    containsText (mockBody (processMessage ⟨some "true"⟩ "w1"
      [⟨"user", some "ping"⟩])) "ping" = true :=
  ⟨(mock_mode_templated_reply ⟨some "true"⟩ "w1" [⟨"user", some "ping"⟩]
      ⟨"user", some "ping"⟩ "ping" rfl rfl rfl).1,
    (mock_mode_templated_reply ⟨some "true"⟩ "w1" [⟨"user", some "ping"⟩]
      ⟨"user", some "ping"⟩ "ping" rfl rfl rfl).2.2.2 rfl⟩

/-- Claim C7 counterexample: at a concrete batch whose only job generates
successfully and whose detached cache write fails, the consumer
acknowledges the batch (no raise) but emits no warning and no error log at
all — the code does not log cache-write failures, because the put sits
inside ctx.waitUntil with no error handler. -/
theorem cache_write_failure_unlogged_cex :
    (runDelivery String (fun _ => .ok "done") (fun _ => false)
      [some ⟨JVal.str "s1", JVal.arr []⟩]).failedWrites =
      [⟨"result:s1", "done", 60 * 60⟩] ∧
    (runDelivery String (fun _ => .ok "done") (fun _ => false)
      [some ⟨JVal.str "s1", JVal.arr []⟩]).consumer.warns = [] ∧
    (runDelivery String (fun _ => .ok "done") (fun _ => false)
      [some ⟨JVal.str "s1", JVal.arr []⟩]).consumer.errLogs = [] ∧
    (runDelivery String (fun _ => .ok "done") (fun _ => false)
      [some ⟨JVal.str "s1", JVal.arr []⟩]).consumer.outcome = none :=
  ⟨rfl, rfl, rfl, rfl⟩

/-- Claim C7 (amended): for every batch whose generation steps succeed,
the fate of the detached cache writes has no influence whatsoever on the
consumer's behaviour — same logs, same outcome as when every write
commits — and the batch is acknowledged as successful (no raise, no
redelivery) even when cache writes fail; the consumer does not itself log
such a failure. -/
theorem cache_write_failure_acknowledged (E : Type)
    (exec : Nat → Except E String) (writeOk : CacheWrite → Bool)
    (batch : List (Option MsgBody))
    (h : ∀ j (hj : j < batch.length), validJob (batch.get ⟨j, hj⟩) = true →
      ∃ t, exec j = .ok t) :
    (runDelivery E exec writeOk batch).consumer =
      (runDelivery E exec (fun _ => true) batch).consumer ∧
    (runDelivery E exec writeOk batch).consumer.outcome = none ∧
    (runDelivery E exec writeOk batch).consumer.warns =
      (runQueue E exec batch).warns ∧
    (runDelivery E exec writeOk batch).consumer.errLogs =
      (runQueue E exec batch).errLogs := by
  refine ⟨rfl, ?_, rfl, rfl⟩
  show (runQueue E exec batch).outcome = none
  apply runQueueFrom_ok_outcome E exec batch 0
  intro j hj hv
  rw [Nat.zero_add]
  exact h j hj hv

theorem cache_write_failure_acknowledged_witness :
    (runDelivery String (fun _ => .ok "done") (fun _ => false)
      [some ⟨JVal.str "s2", JVal.arr []⟩]).consumer.outcome = none :=
  (cache_write_failure_acknowledged String (fun _ => .ok "done")
    (fun _ => false) [some ⟨JVal.str "s2", JVal.arr []⟩]
    (fun _ _ _ => ⟨"done", rfl⟩)).2.1

end QueuesAgent
